import Mathlib

/-!
Verification of the subgraph pattern matcher in
torch/csrc/jit/subgraph_matcher.cpp.

The matcher compares a small pattern graph against a target graph
anchored at a candidate node, using two memoization maps (pattern node
to target node, pattern value to target value), and a driver that
enumerates every node of the target graph, descending into nested
blocks via an explicit stack.

The dataflow graph interface (class Graph, Node, Value, Block of the
JIT IR) is external to the matcher source file; it is embedded below
as a record of total functions over natural-number identifiers,
following the data model the matcher consumes: each node has an
operator kind, ordered input and output values, an owning block and a
list of owned sub-blocks; each value has a defining node and a use
count; each block has a list of member nodes; the graph has a root
block and a distinguished return node (the node denoted by
*(graph.nodes().end()) in the source, whose inputs are the graph
outputs).
-/

namespace SubgraphMatching

/-- Modelled from the spec: the read-only dataflow graph interface
(nodes with kind, ordered inputs and outputs, owning block and owned
sub-blocks; values with a unique defining node and a use count; blocks
with an ordered node list; a root block and the distinguished exit or
return node).  Nodes, values and blocks are identified by natural
numbers; the fields numNodes and numValues bound the identifiers a
well-formed graph uses. -/
structure Graph where
  numNodes : Nat
  numValues : Nat
  nodeKind : Nat → Nat
  nodeInputs : Nat → List Nat
  nodeOutputs : Nat → List Nat
  nodeOwningBlock : Nat → Nat
  nodeBlocks : Nat → List Nat
  valueNode : Nat → Nat
  valueUses : Nat → Nat
  blockNodes : Nat → List Nat
  rootBlock : Nat
  returnNode : Nat

/-- The interned symbol prim::Param. -/
def primParam : Nat := 0

/-- The memoization state of one anchor attempt: the pattern-node to
target-node map and the pattern-value to target-value map, as
association lists with the most recent insertion first. -/
structure MatchState where
  nodesMap : List (Nat × Nat)
  valuesMap : List (Nat × Nat)
deriving DecidableEq

/-- A reported match: the anchor node together with snapshots of the
two maps, mirroring struct Match. -/
structure Match where
  anchor : Nat
  nodesMap : List (Nat × Nat)
  valuesMap : List (Nat × Nat)
deriving DecidableEq

/-- Association-list lookup, modelling unordered_map::count / at. -/
def lookup (k : Nat) : List (Nat × Nat) → Option Nat
  | [] => none
  | (k', v) :: rest => if k = k' then some v else lookup k rest

/-- patternGraphIsValid, first check: no node of the pattern root
block owns a sub-block (the loop over pattern.nodes() returning false
at the first node with a nonempty blocks() list). -/
def allBlocksEmpty (p : Graph) : List Nat → Bool
  | [] => true
  | n :: ns => if (p.nodeBlocks n).isEmpty then allBlocksEmpty p ns else false

/-- patternGraphIsValid: the pattern root block is flat and the return
node (bottom_node, i.e. *(pattern.nodes().end())) has exactly one
input. -/
def patternGraphIsValid (p : Graph) : Bool :=
  allBlocksEmpty p (p.blockNodes p.rootBlock) &&
    ((p.nodeInputs p.returnNode).length == 1)

/-- The pending comparison of the recursive matcher: a pair of values
(matchValues), a pair of nodes (matchNodes), or the remaining list of
value pairs of a node comparison (the two sequential for loops over
outputs then inputs). -/
inductive Task where
  | vals (v1 v2 : Nat)
  | nods (n1 n2 : Nat)
  | list (ps : List (Nat × Nat))
deriving DecidableEq

/-- The recursive core of SubgraphMatcher::matchValues /
SubgraphMatcher::matchNodes, with an explicit fuel argument making the
(memoization-bounded) recursion structural.  The first component p is
the pattern graph, g the target graph.  A result of none means the
fuel ran out; fuel adequacy is proved below. -/
def matchRun (p g : Graph) (anchor : Nat) : Nat → MatchState → Task → Option (Bool × MatchState)
  | 0, _, _ => none
  | fuel + 1, s, Task.vals v1 v2 =>
    match lookup v1 s.valuesMap with
    | some tv => some (decide (tv = v2), s)
    | none =>
      if p.valueUses v1 ≠ g.valueUses v2 ∧ g.valueNode v2 ≠ anchor ∧
          p.nodeKind (p.valueNode v1) ≠ primParam then
        some (false, s)
      else
        matchRun p g anchor fuel ⟨s.nodesMap, (v1, v2) :: s.valuesMap⟩
          (Task.nods (p.valueNode v1) (g.valueNode v2))
  | fuel + 1, s, Task.nods n1 n2 =>
    match lookup n1 s.nodesMap with
    | some tn => some (decide (tn = n2), s)
    | none =>
      if p.nodeKind n1 = primParam then
        some (true, s)
      else if g.nodeOwningBlock n2 ≠ g.nodeOwningBlock anchor then
        some (false, s)
      else if p.nodeKind n1 ≠ g.nodeKind n2 ∨
          (p.nodeOutputs n1).length ≠ (g.nodeOutputs n2).length ∨
          (p.nodeInputs n1).length ≠ (g.nodeInputs n2).length then
        some (false, s)
      else
        matchRun p g anchor fuel ⟨(n1, n2) :: s.nodesMap, s.valuesMap⟩
          (Task.list ((p.nodeOutputs n1).zip (g.nodeOutputs n2) ++
            (p.nodeInputs n1).zip (g.nodeInputs n2)))
  | _ + 1, s, Task.list [] => some (true, s)
  | fuel + 1, s, Task.list ((v1, v2) :: rest) =>
    match matchRun p g anchor fuel s (Task.vals v1 v2) with
    | none => none
    | some (false, s') => some (false, s')
    | some (true, s') => matchRun p g anchor fuel s' (Task.list rest)

/-- SubgraphMatcher::matchValues. -/
def matchValues (p g : Graph) (anchor fuel : Nat) (s : MatchState) (v1 v2 : Nat) :
    Option (Bool × MatchState) :=
  matchRun p g anchor fuel s (Task.vals v1 v2)

/-- SubgraphMatcher::matchNodes. -/
def matchNodes (p g : Graph) (anchor fuel : Nat) (s : MatchState) (n1 n2 : Nat) :
    Option (Bool × MatchState) :=
  matchRun p g anchor fuel s (Task.nods n1 n2)

/-- The largest combined input/output arity of a pattern node, used to
size the fuel. -/
def maxArity (p : Graph) : Nat :=
  ((List.range p.numNodes).map fun n =>
    (p.nodeOutputs n).length + (p.nodeInputs n).length).foldr max 0

/-- Fuel sufficient for any anchor attempt (proved below): every
recursive step either consults the maps or grows one of them, and the
maps hold at most numValues and numNodes distinct pattern keys. -/
def matchFuel (p : Graph) : Nat :=
  (p.numValues + p.numNodes) * (maxArity p + 2) + 1

/-- SubgraphMatcher::matchesSubgraphFromAnchorNode: reset the maps,
take the single input of the pattern return node, and match its
defining node against the anchor.  The result none models the
AT_ASSERT failure on a return node without exactly one input (or fuel
exhaustion, ruled out by the adequacy theorem). -/
def matchesSubgraphFromAnchorNode (p g : Graph) (anchor : Nat) :
    Option (Bool × MatchState) :=
  if (p.nodeInputs p.returnNode).length = 1 then
    matchNodes p g anchor (matchFuel p) ⟨[], []⟩
      (p.valueNode ((p.nodeInputs p.returnNode).headD 0)) anchor
  else none

/-- Pushing the sub-blocks of each node of a block onto the
blocks_to_visit stack, in node order; each node's sub-blocks are
pushed in order, so they end up reversed on the stack top. -/
def pushSubBlocks (g : Graph) : List Nat → List Nat → List Nat
  | [], stk => stk
  | n :: ns, stk => pushSubBlocks g ns ((g.nodeBlocks n).reverse ++ stk)

/-- The per-block body of the driver loop of findPatternMatches: try
each node of the block as an anchor, record successful matches, and
push the node's sub-blocks onto the stack. -/
def driverNodes (p g : Graph) : List Nat → List Nat → List Match →
    Option (List Match × List Nat)
  | [], stk, acc => some (acc, stk)
  | n :: ns, stk, acc =>
    match matchesSubgraphFromAnchorNode p g n with
    | none => none
    | some (ok, s) =>
      driverNodes p g ns ((g.nodeBlocks n).reverse ++ stk)
        (if ok then acc ++ [⟨n, s.nodesMap, s.valuesMap⟩] else acc)

/-- The while loop of findPatternMatches over the stack of blocks
still to visit.  The outer fuel bounds the number of blocks processed;
a result of none means a failed inner assertion or exhausted fuel. -/
def driverLoop (p g : Graph) : Nat → List Nat → List Match → Option (List Match)
  | 0, [], acc => some acc
  | 0, _ :: _, _ => none
  | _ + 1, [], acc => some acc
  | fuel + 1, b :: rest, acc =>
    match driverNodes p g (g.blockNodes b) rest acc with
    | none => none
    | some (acc', stk') => driverLoop p g fuel stk' acc'

/-- findPatternMatches: assert the pattern is valid (none models the
AT_ASSERT abort), then run the driver loop from the target root
block. -/
def findPatternMatches (p g : Graph) (tfuel : Nat) : Option (List Match) :=
  if patternGraphIsValid p then driverLoop p g tfuel [g.rootBlock] [] else none

/-- The enumeration of target nodes the driver performs: the same
stack-driven block traversal as findPatternMatches, collecting the
nodes instead of matching them.  Used to state that the driver visits
every node of the graph, nested sub-blocks included. -/
def collectNodes (g : Graph) : Nat → List Nat → List Nat → Option (List Nat)
  | 0, [], acc => some acc
  | 0, _ :: _, _ => none
  | _ + 1, [], acc => some acc
  | fuel + 1, b :: rest, acc =>
    collectNodes g fuel (pushSubBlocks g (g.blockNodes b) rest)
      (acc ++ g.blockNodes b)

/-- All nodes of the target graph in driver visiting order. -/
def allGraphNodes (g : Graph) (tfuel : Nat) : Option (List Nat) :=
  collectNodes g tfuel [g.rootBlock] []


/-!
Concrete graphs used as witnesses and counterexamples.
-/

/-- A pattern consisting solely of a Param node whose single output
value 0 feeds the return node: graph(%x): return (%x).  Node 0 is the
return node, node 1 the Param node. -/
def pP : Graph where
  numNodes := 2
  numValues := 1
  nodeKind := fun n => if n = 1 then primParam else 99
  nodeInputs := fun n => if n = 0 then [0] else []
  nodeOutputs := fun n => if n = 1 then [0] else []
  nodeOwningBlock := fun _ => 0
  nodeBlocks := fun _ => []
  valueNode := fun _ => 1
  valueUses := fun _ => 1
  blockNodes := fun _ => []
  rootBlock := 0
  returnNode := 0

/-- A target graph with a nested block: root block 0 holds node 1,
which owns sub-block 1 holding node 2.  Kinds and values are
irrelevant for the Param-only pattern. -/
def tB : Graph where
  numNodes := 3
  numValues := 0
  nodeKind := fun _ => 99
  nodeInputs := fun _ => []
  nodeOutputs := fun _ => []
  nodeOwningBlock := fun n => if n = 2 then 1 else 0
  nodeBlocks := fun n => if n = 1 then [1] else []
  valueNode := fun _ => 0
  valueUses := fun _ => 0
  blockNodes := fun b => if b = 0 then [1] else if b = 1 then [2] else []
  rootBlock := 0
  returnNode := 0

/-- A chain pattern graph(%x): %v2 = F(%x); %vc = G(%v2);
%v1 = F(%vc); return (%v1).  Node 0 is the return node, node 1 the
Param node, node 2 produces the returned value (kind F), node 3 has
kind G, node 4 kind F.  Values: 0 = %x (by node 1), 1 = %v2 (by node
4), 2 = %vc (by node 3), 3 = %v1 (by node 2); each used once. -/
def pC : Graph where
  numNodes := 5
  numValues := 4
  nodeKind := fun n =>
    if n = 1 then primParam else if n = 2 then 10 else if n = 3 then 11
    else if n = 4 then 10 else 99
  nodeInputs := fun n =>
    if n = 0 then [3] else if n = 2 then [2] else if n = 3 then [1]
    else if n = 4 then [0] else []
  nodeOutputs := fun n =>
    if n = 1 then [0] else if n = 2 then [3] else if n = 3 then [2]
    else if n = 4 then [1] else []
  nodeOwningBlock := fun _ => 0
  nodeBlocks := fun _ => []
  valueNode := fun v =>
    if v = 0 then 1 else if v = 1 then 4 else if v = 2 then 3 else 2
  valueUses := fun _ => 1
  blockNodes := fun b => if b = 0 then [4, 3, 2] else []
  rootBlock := 0
  returnNode := 0

/-- A target graph whose use/def references form a cycle across nodes:
node 2 (kind F) consumes value 1 and produces value 0; node 3 (kind G)
consumes value 0 and produces value 1.  Value 0 has three uses (one
inside the region, two external), value 1 has one use.  Both nodes are
in block 0. -/
def tC : Graph where
  numNodes := 4
  numValues := 2
  nodeKind := fun n => if n = 2 then 10 else if n = 3 then 11 else 99
  nodeInputs := fun n => if n = 2 then [1] else if n = 3 then [0] else []
  nodeOutputs := fun n => if n = 2 then [0] else if n = 3 then [1] else []
  nodeOwningBlock := fun _ => 0
  nodeBlocks := fun _ => []
  valueNode := fun v => if v = 0 then 2 else 3
  valueUses := fun v => if v = 0 then 3 else 1
  blockNodes := fun b => if b = 0 then [2, 3] else []
  rootBlock := 0
  returnNode := 0

/-- An invalid pattern: its return node has two inputs. -/
def pBad : Graph where
  numNodes := 1
  numValues := 2
  nodeKind := fun _ => 99
  nodeInputs := fun _ => [0, 1]
  nodeOutputs := fun _ => []
  nodeOwningBlock := fun _ => 0
  nodeBlocks := fun _ => []
  valueNode := fun _ => 0
  valueUses := fun _ => 0
  blockNodes := fun _ => []
  rootBlock := 0
  returnNode := 0

/-- A pattern node with kind 7 and two inputs. -/
def pK : Graph where
  numNodes := 1
  numValues := 3
  nodeKind := fun _ => 7
  nodeInputs := fun _ => [0, 1]
  nodeOutputs := fun _ => [2]
  nodeOwningBlock := fun _ => 0
  nodeBlocks := fun _ => []
  valueNode := fun _ => 0
  valueUses := fun _ => 0
  blockNodes := fun _ => []
  rootBlock := 0
  returnNode := 0

/-- A target node with kind 7 and three inputs. -/
def gK : Graph where
  numNodes := 1
  numValues := 4
  nodeKind := fun _ => 7
  nodeInputs := fun _ => [0, 1, 2]
  nodeOutputs := fun _ => [3]
  nodeOwningBlock := fun _ => 0
  nodeBlocks := fun _ => []
  valueNode := fun _ => 0
  valueUses := fun _ => 0
  blockNodes := fun _ => []
  rootBlock := 0
  returnNode := 0

/-!
Basic lemmas about association-list lookup.
-/

lemma lookup_eq_none_iff (k : Nat) :
    ∀ l : List (Nat × Nat), lookup k l = none ↔ k ∉ l.map Prod.fst := by
  intro l
  induction l with
  | nil => simp [lookup]
  | cons e rest ih =>
    obtain ⟨a, b⟩ := e
    by_cases h : k = a
    · simp [lookup, h]
    · simp [lookup, h, ih]

lemma lookup_cons_of_ne {k a : Nat} (b : Nat) (l : List (Nat × Nat)) (h : k ≠ a) :
    lookup k ((a, b) :: l) = lookup k l := by
  simp [lookup, h]

/-!
The validator.
-/

lemma allBlocksEmpty_iff (p : Graph) :
    ∀ l : List Nat, allBlocksEmpty p l = true ↔ ∀ n ∈ l, p.nodeBlocks n = [] := by
  intro l
  induction l with
  | nil => simp [allBlocksEmpty]
  | cons n ns ih =>
    by_cases h : (p.nodeBlocks n).isEmpty
    · simp only [allBlocksEmpty, if_pos h, ih, List.mem_cons]
      rw [List.isEmpty_iff] at h
      constructor
      · rintro hall m (rfl | hm)
        · exact h
        · exact hall m hm
      · intro hall m hm
        exact hall m (Or.inr hm)
    · simp only [allBlocksEmpty, if_neg h]
      rw [List.isEmpty_iff] at h
      constructor
      · intro hfalse
        exact absurd hfalse (by simp)
      · intro hall
        exact absurd (hall n (List.mem_cons_self n ns)) h

/-- C2.  patternGraphIsValid returns true exactly when no node of the
pattern root block owns a sub-block and the pattern exit (return) node
has exactly one input; it returns false when either check fails. -/
theorem claim_C2 (p : Graph) :
    patternGraphIsValid p = true ↔
      ((∀ n ∈ p.blockNodes p.rootBlock, p.nodeBlocks n = []) ∧
        (p.nodeInputs p.returnNode).length = 1) := by
  rw [patternGraphIsValid, Bool.and_eq_true, allBlocksEmpty_iff, beq_iff_eq]

/-- C3.  A pattern/target value pair with no prior mapping fails the
use-count rule exactly when the use counts differ and neither
exception applies: if the target value is not produced by the anchor
and the pattern value is not produced by a Param node, matchValues
fails at once; if either exception holds, matchValues records the
mapping and proceeds to compare the defining nodes. -/
theorem claim_C3 (p g : Graph) (anchor fuel : Nat) (s : MatchState) (v1 v2 : Nat)
    (hun : lookup v1 s.valuesMap = none)
    (huses : p.valueUses v1 ≠ g.valueUses v2) :
    (g.valueNode v2 ≠ anchor → p.nodeKind (p.valueNode v1) ≠ primParam →
      matchValues p g anchor (fuel + 1) s v1 v2 = some (false, s)) ∧
    (g.valueNode v2 = anchor ∨ p.nodeKind (p.valueNode v1) = primParam →
      matchValues p g anchor (fuel + 1) s v1 v2 =
        matchNodes p g anchor fuel ⟨s.nodesMap, (v1, v2) :: s.valuesMap⟩
          (p.valueNode v1) (g.valueNode v2)) := by
  constructor
  · intro hanchor hparam
    simp only [matchValues, matchRun, hun]
    rw [if_pos ⟨huses, hanchor, hparam⟩]
  · intro hexc
    simp only [matchValues, matchNodes, matchRun, hun]
    rw [if_neg]
    rintro ⟨-, hanchor, hparam⟩
    rcases hexc with h | h
    · exact hanchor h
    · exact hparam h

theorem claim_C3_witness :
    (pC.valueUses 2 ≠ tC.valueUses 0 ∧ tC.valueNode 0 ≠ 3 ∧
      pC.nodeKind (pC.valueNode 2) ≠ primParam ∧
      matchValues pC tC 3 6 ⟨[], []⟩ 2 0 = some (false, ⟨[], []⟩)) ∧
    (tC.valueNode 0 = 2 ∧ pC.valueUses 3 ≠ tC.valueUses 0 ∧
      matchValues pC tC 2 6 ⟨[], []⟩ 3 0 =
        matchNodes pC tC 2 5 ⟨[], [(3, 0)]⟩ (pC.valueNode 3) (tC.valueNode 0)) ∧
    (matchValues pC tC 2 36 ⟨[], []⟩ 3 0).map Prod.fst = some true :=
  ⟨⟨by decide, by decide, by decide,
      (claim_C3 pC tC 3 5 ⟨[], []⟩ 2 0 (by decide) (by decide)).1
        (by decide) (by decide)⟩,
    ⟨by decide, by decide,
      (claim_C3 pC tC 2 5 ⟨[], []⟩ 3 0 (by decide) (by decide)).2
        (Or.inl (by decide))⟩,
    by decide⟩

/-- C4.  An unmapped non-Param pattern node never matches a target
node of different kind, different output count or different input
count: matchNodes returns false (whether or not the scope check
already failed). -/
theorem claim_C4 (p g : Graph) (anchor fuel : Nat) (s : MatchState) (n1 n2 : Nat)
    (hun : lookup n1 s.nodesMap = none)
    (hparam : p.nodeKind n1 ≠ primParam)
    (hmis : p.nodeKind n1 ≠ g.nodeKind n2 ∨
      (p.nodeOutputs n1).length ≠ (g.nodeOutputs n2).length ∨
      (p.nodeInputs n1).length ≠ (g.nodeInputs n2).length) :
    matchNodes p g anchor (fuel + 1) s n1 n2 = some (false, s) := by
  simp only [matchNodes, matchRun, hun]
  rw [if_neg hparam]
  by_cases hblk : g.nodeOwningBlock n2 ≠ g.nodeOwningBlock anchor
  · rw [if_pos hblk]
  · rw [if_neg hblk, if_pos hmis]

theorem claim_C4_witness :
    pK.nodeKind 0 = gK.nodeKind 0 ∧
    (pK.nodeInputs 0).length = 2 ∧ (gK.nodeInputs 0).length = 3 ∧
    matchNodes pK gK 0 6 ⟨[], []⟩ 0 0 = some (false, ⟨[], []⟩) :=
  ⟨by decide, by decide, by decide,
    claim_C4 pK gK 0 5 ⟨[], []⟩ 0 0 (by decide) (by decide)
      (Or.inr (Or.inr (by decide)))⟩

/-- C10.  An unmapped pattern node of kind Param matches any target
node at once, in particular one whose owning block differs from the
anchor's owning block: the Param test precedes the scope test. -/
theorem claim_C10 (p g : Graph) (anchor fuel : Nat) (s : MatchState) (n1 n2 : Nat)
    (hun : lookup n1 s.nodesMap = none)
    (hparam : p.nodeKind n1 = primParam) :
    matchNodes p g anchor (fuel + 1) s n1 n2 = some (true, s) := by
  simp only [matchNodes, matchRun, hun]
  rw [if_pos hparam]

theorem claim_C10_witness :
    tB.nodeOwningBlock 2 ≠ tB.nodeOwningBlock 1 ∧
    pP.nodeKind 1 = primParam ∧
    matchNodes pP tB 1 4 ⟨[], []⟩ 1 2 = some (true, ⟨[], []⟩) :=
  ⟨by decide, by decide, claim_C10 pP tB 1 3 ⟨[], []⟩ 1 2 (by decide) (by decide)⟩

/-!
How one matcher step may change the memoization state: both maps only
grow (new entries in front), an existing binding is never replaced,
and every new node entry was inserted after the Param test and the
scope test, hence has a non-Param pattern key and a target node in the
anchor's owning block.
-/

def StepRel (p g : Graph) (anchor : Nat) (s s' : MatchState) : Prop :=
  (∃ nv, s'.valuesMap = nv ++ s.valuesMap) ∧
  (∃ nn, s'.nodesMap = nn ++ s.nodesMap ∧
    ∀ e ∈ nn, p.nodeKind e.1 ≠ primParam ∧
      g.nodeOwningBlock e.2 = g.nodeOwningBlock anchor) ∧
  (∀ k w, lookup k s.valuesMap = some w → lookup k s'.valuesMap = some w) ∧
  (∀ k w, lookup k s.nodesMap = some w → lookup k s'.nodesMap = some w)

lemma stepRel_rfl (p g : Graph) (anchor : Nat) (s : MatchState) :
    StepRel p g anchor s s :=
  ⟨⟨[], rfl⟩, ⟨[], rfl, by simp⟩, fun _ _ h => h, fun _ _ h => h⟩

lemma stepRel_trans {p g : Graph} {anchor : Nat} {s s' s'' : MatchState}
    (h1 : StepRel p g anchor s s') (h2 : StepRel p g anchor s' s'') :
    StepRel p g anchor s s'' := by
  obtain ⟨⟨nv1, hv1⟩, ⟨nn1, hn1, hp1⟩, hkv1, hkn1⟩ := h1
  obtain ⟨⟨nv2, hv2⟩, ⟨nn2, hn2, hp2⟩, hkv2, hkn2⟩ := h2
  refine ⟨⟨nv2 ++ nv1, ?_⟩, ⟨nn2 ++ nn1, ?_, ?_⟩,
    fun k w h => hkv2 k w (hkv1 k w h), fun k w h => hkn2 k w (hkn1 k w h)⟩
  · rw [hv2, hv1, List.append_assoc]
  · rw [hn2, hn1, List.append_assoc]
  · intro e he
    rcases List.mem_append.mp he with he | he
    · exact hp2 e he
    · exact hp1 e he

lemma stepRel_insertValue {p g : Graph} {anchor : Nat} {s : MatchState} {v1 v2 : Nat}
    (hl : lookup v1 s.valuesMap = none) :
    StepRel p g anchor s ⟨s.nodesMap, (v1, v2) :: s.valuesMap⟩ := by
  refine ⟨⟨[(v1, v2)], rfl⟩, ⟨[], rfl, by simp⟩, ?_, fun _ _ h => h⟩
  intro k w h
  have hne : k ≠ v1 := by
    rintro rfl
    rw [hl] at h
    exact Option.noConfusion h
  rw [lookup_cons_of_ne _ _ hne]
  exact h

lemma stepRel_insertNode {p g : Graph} {anchor : Nat} {s : MatchState} {n1 n2 : Nat}
    (hl : lookup n1 s.nodesMap = none)
    (hkind : p.nodeKind n1 ≠ primParam)
    (hblk : g.nodeOwningBlock n2 = g.nodeOwningBlock anchor) :
    StepRel p g anchor s ⟨(n1, n2) :: s.nodesMap, s.valuesMap⟩ := by
  refine ⟨⟨[], rfl⟩, ⟨[(n1, n2)], rfl, ?_⟩, fun _ _ h => h, ?_⟩
  · intro e he
    rcases List.mem_cons.mp he with rfl | he
    · exact ⟨hkind, hblk⟩
    · exact absurd he (List.not_mem_nil e)
  · intro k w h
    have hne : k ≠ n1 := by
      rintro rfl
      rw [hl] at h
      exact Option.noConfusion h
    rw [lookup_cons_of_ne _ _ hne]
    exact h

/-- Any successful or failed step of the matcher core relates its
initial and final states by StepRel. -/
lemma matchRunStep (p g : Graph) (anchor : Nat) :
    ∀ fuel s t b s', matchRun p g anchor fuel s t = some (b, s') →
      StepRel p g anchor s s' := by
  intro fuel
  induction fuel with
  | zero =>
    intro s t b s' h
    simp [matchRun] at h
  | succ fuel ih =>
    intro s t b s' h
    cases t with
    | vals v1 v2 =>
      simp only [matchRun] at h
      split at h
      · obtain ⟨-, rfl⟩ := Prod.mk.injEq .. ▸ Option.some.inj h
        exact stepRel_rfl p g anchor s
      · rename_i hl
        split at h
        · obtain ⟨-, rfl⟩ := Prod.mk.injEq .. ▸ Option.some.inj h
          exact stepRel_rfl p g anchor s
        · exact stepRel_trans (stepRel_insertValue hl) (ih _ _ _ _ h)
    | nods n1 n2 =>
      simp only [matchRun] at h
      split at h
      · obtain ⟨-, rfl⟩ := Prod.mk.injEq .. ▸ Option.some.inj h
        exact stepRel_rfl p g anchor s
      · rename_i hl
        split at h
        · obtain ⟨-, rfl⟩ := Prod.mk.injEq .. ▸ Option.some.inj h
          exact stepRel_rfl p g anchor s
        · rename_i hkind
          split at h
          · obtain ⟨-, rfl⟩ := Prod.mk.injEq .. ▸ Option.some.inj h
            exact stepRel_rfl p g anchor s
          · rename_i hblk
            split at h
            · obtain ⟨-, rfl⟩ := Prod.mk.injEq .. ▸ Option.some.inj h
              exact stepRel_rfl p g anchor s
            · exact stepRel_trans
                (stepRel_insertNode hl hkind (not_ne_iff.mp hblk)) (ih _ _ _ _ h)
    | list ps =>
      cases ps with
      | nil =>
        simp only [matchRun] at h
        obtain ⟨-, rfl⟩ := Prod.mk.injEq .. ▸ Option.some.inj h
        exact stepRel_rfl p g anchor s
      | cons e rest =>
        obtain ⟨v1, v2⟩ := e
        simp only [matchRun] at h
        split at h
        · exact absurd h (by simp)
        · rename_i s1 hm
          obtain ⟨-, rfl⟩ := Prod.mk.injEq .. ▸ Option.some.inj h
          exact ih _ _ _ _ hm
        · rename_i s1 hm
          exact stepRel_trans (ih _ _ _ _ hm) (ih _ _ _ _ h)

/-- A successful anchor attempt relates the empty state to the final
state by StepRel. -/
lemma anchorStep (p g : Graph) (anchor : Nat) (b : Bool) (s : MatchState)
    (h : matchesSubgraphFromAnchorNode p g anchor = some (b, s)) :
    StepRel p g anchor ⟨[], []⟩ s := by
  unfold matchesSubgraphFromAnchorNode at h
  split at h
  · exact matchRunStep p g anchor _ _ _ _ _ h
  · exact absurd h (by simp)

/-- Every match collected by the per-block driver body either was
already in the accumulator or is the snapshot of a successful anchor
attempt at its own anchor node. -/
lemma driverNodesMem (p g : Graph) :
    ∀ ns stk acc acc' stk', driverNodes p g ns stk acc = some (acc', stk') →
      ∀ m ∈ acc', m ∈ acc ∨
        ∃ s, matchesSubgraphFromAnchorNode p g m.anchor = some (true, s) ∧
          m.nodesMap = s.nodesMap ∧ m.valuesMap = s.valuesMap := by
  intro ns
  induction ns with
  | nil =>
    intro stk acc acc' stk' h m hm
    simp only [driverNodes] at h
    obtain ⟨rfl, -⟩ := Prod.mk.injEq .. ▸ Option.some.inj h
    exact Or.inl hm
  | cons n ns ih =>
    intro stk acc acc' stk' h m hm
    simp only [driverNodes] at h
    split at h
    · exact absurd h (by simp)
    · rename_i ok s hmn
      rcases ih _ _ _ _ h m hm with hmem | hex
      · cases ok with
        | false => exact Or.inl (by simpa using hmem)
        | true =>
          rcases (by simpa using hmem :
              m ∈ acc ∨ m = (⟨n, s.nodesMap, s.valuesMap⟩ : Match)) with hacc | rfl
          · exact Or.inl hacc
          · exact Or.inr ⟨s, hmn, rfl, rfl⟩
      · exact Or.inr hex

/-- Every match collected by the driver loop either was already in
the accumulator or comes from a successful anchor attempt. -/
lemma driverLoopMem (p g : Graph) :
    ∀ fuel stk acc ms, driverLoop p g fuel stk acc = some ms →
      ∀ m ∈ ms, m ∈ acc ∨
        ∃ s, matchesSubgraphFromAnchorNode p g m.anchor = some (true, s) ∧
          m.nodesMap = s.nodesMap ∧ m.valuesMap = s.valuesMap := by
  intro fuel
  induction fuel with
  | zero =>
    intro stk acc ms h m hm
    cases stk with
    | nil =>
      obtain rfl := Option.some.inj h
      exact Or.inl hm
    | cons b rest => exact absurd h (by simp [driverLoop])
  | succ fuel ih =>
    intro stk acc ms h m hm
    cases stk with
    | nil =>
      obtain rfl := Option.some.inj h
      exact Or.inl hm
    | cons b rest =>
      simp only [driverLoop] at h
      split at h
      · exact absurd h (by simp)
      · rename_i acc' stk' hdn
        rcases ih _ _ _ h m hm with hmem | hex
        · exact driverNodesMem p g _ _ _ _ _ hdn m hmem
        · exact Or.inr hex

/-- Every reported match is the snapshot of a successful anchor
attempt rooted at its own anchor. -/
lemma findPatternMatchesMem (p g : Graph) (tfuel : Nat) (ms : List Match)
    (h : findPatternMatches p g tfuel = some ms) :
    ∀ m ∈ ms, ∃ s, matchesSubgraphFromAnchorNode p g m.anchor = some (true, s) ∧
      m.nodesMap = s.nodesMap ∧ m.valuesMap = s.valuesMap := by
  intro m hm
  unfold findPatternMatches at h
  split at h
  · rcases driverLoopMem p g _ _ _ _ h m hm with hmem | hex
    · exact absurd hmem (List.not_mem_nil m)
    · exact hex
  · exact absurd h (by simp)

/-- The node-map entries of every reported match have non-Param
pattern keys and target nodes in the anchor's owning block. -/
lemma reportedNodesMapProps (p g : Graph) (tfuel : Nat) (ms : List Match)
    (h : findPatternMatches p g tfuel = some ms) :
    ∀ m ∈ ms, ∀ e ∈ m.nodesMap, p.nodeKind e.1 ≠ primParam ∧
      g.nodeOwningBlock e.2 = g.nodeOwningBlock m.anchor := by
  intro m hm e he
  obtain ⟨s, hs, hnm, -⟩ := findPatternMatchesMem p g tfuel ms h m hm
  obtain ⟨-, ⟨nn, hn, hp⟩, -, -⟩ := anchorStep p g m.anchor true s hs
  rw [hnm] at he
  rw [hn, List.append_nil] at he
  exact hp e he

/-- C5.  An unmapped non-Param pattern node never matches a target
node whose owning block differs from the anchor's owning block, and
consequently no reported match maps any pattern node to a target node
outside the anchor's owning block. -/
theorem claim_C5 :
    (∀ (p g : Graph) (anchor fuel : Nat) (s : MatchState) (n1 n2 : Nat),
      lookup n1 s.nodesMap = none → p.nodeKind n1 ≠ primParam →
      g.nodeOwningBlock n2 ≠ g.nodeOwningBlock anchor →
      matchNodes p g anchor (fuel + 1) s n1 n2 = some (false, s)) ∧
    (∀ (p g : Graph) (tfuel : Nat) (ms : List Match),
      findPatternMatches p g tfuel = some ms →
      ∀ m ∈ ms, ∀ e ∈ m.nodesMap,
        g.nodeOwningBlock e.2 = g.nodeOwningBlock m.anchor) := by
  constructor
  · intro p g anchor fuel s n1 n2 hun hparam hblk
    simp only [matchNodes, matchRun, hun]
    rw [if_neg hparam, if_pos hblk]
  · intro p g tfuel ms h m hm e he
    exact (reportedNodesMapProps p g tfuel ms h m hm e he).2

theorem claim_C5_witness :
    (tB.nodeOwningBlock 2 ≠ tB.nodeOwningBlock 1 ∧
      matchNodes pC tB 1 4 ⟨[], []⟩ 2 2 = some (false, ⟨[], []⟩)) ∧
    (findPatternMatches pC tC 1 =
        some [⟨2, [(4, 2), (3, 3), (2, 2)], [(0, 1), (1, 0), (2, 1), (3, 0)]⟩] ∧
      tC.nodeOwningBlock 2 = tC.nodeOwningBlock 2) :=
  ⟨⟨by decide, claim_C5.1 pC tB 1 3 ⟨[], []⟩ 2 2 (by decide) (by decide) (by decide)⟩,
    ⟨by decide,
      claim_C5.2 pC tC 1 [⟨2, [(4, 2), (3, 3), (2, 2)], [(0, 1), (1, 0), (2, 1), (3, 0)]⟩]
        (by decide) ⟨2, [(4, 2), (3, 3), (2, 2)], [(0, 1), (1, 0), (2, 1), (3, 0)]⟩
        (by simp) (4, 2) (by simp)⟩⟩

/-- C6.  The maps are write-once per key: a later matchValues on an
already-mapped pattern value succeeds exactly when the target value
equals the recorded one and leaves the state unchanged; likewise for
matchNodes on an already-mapped pattern node; and any step of the
matcher preserves every existing binding of both maps. -/
theorem claim_C6 :
    (∀ (p g : Graph) (anchor fuel : Nat) (s : MatchState) (pv tv tv2 : Nat),
      lookup pv s.valuesMap = some tv →
      matchValues p g anchor (fuel + 1) s pv tv2 = some (decide (tv = tv2), s)) ∧
    (∀ (p g : Graph) (anchor fuel : Nat) (s : MatchState) (pn tn tn2 : Nat),
      lookup pn s.nodesMap = some tn →
      matchNodes p g anchor (fuel + 1) s pn tn2 = some (decide (tn = tn2), s)) ∧
    (∀ (p g : Graph) (anchor fuel : Nat) (s : MatchState) (t : Task) (b : Bool)
        (s' : MatchState), matchRun p g anchor fuel s t = some (b, s') →
      (∀ k w, lookup k s.valuesMap = some w → lookup k s'.valuesMap = some w) ∧
      (∀ k w, lookup k s.nodesMap = some w → lookup k s'.nodesMap = some w)) := by
  refine ⟨?_, ?_, ?_⟩
  · intro p g anchor fuel s pv tv tv2 hl
    simp only [matchValues, matchRun, hl]
  · intro p g anchor fuel s pn tn tn2 hl
    simp only [matchNodes, matchRun, hl]
  · intro p g anchor fuel s t b s' h
    obtain ⟨-, -, hkv, hkn⟩ := matchRunStep p g anchor fuel s t b s' h
    exact ⟨hkv, hkn⟩

theorem claim_C6_witness :
    (matchValues pC tC 2 7 ⟨[(2, 2)], [(3, 0)]⟩ 3 0 = some (true, ⟨[(2, 2)], [(3, 0)]⟩) ∧
      matchValues pC tC 2 7 ⟨[(2, 2)], [(3, 0)]⟩ 3 1 = some (false, ⟨[(2, 2)], [(3, 0)]⟩)) ∧
    (matchNodes pC tC 2 7 ⟨[(2, 2)], [(3, 0)]⟩ 2 2 = some (true, ⟨[(2, 2)], [(3, 0)]⟩) ∧
      matchNodes pC tC 2 7 ⟨[(2, 2)], [(3, 0)]⟩ 2 3 = some (false, ⟨[(2, 2)], [(3, 0)]⟩)) ∧
    (matchRun pC tC 2 36 ⟨[], [(3, 0)]⟩ (Task.nods 2 2) =
        some (true, ⟨[(4, 2), (3, 3), (2, 2)], [(0, 1), (1, 0), (2, 1), (3, 0)]⟩) ∧
      lookup 3 [(0, 1), (1, 0), (2, 1), (3, 0)] = some 0) :=
  ⟨⟨claim_C6.1 pC tC 2 6 ⟨[(2, 2)], [(3, 0)]⟩ 3 0 0 (by decide),
      claim_C6.1 pC tC 2 6 ⟨[(2, 2)], [(3, 0)]⟩ 3 0 1 (by decide)⟩,
    ⟨claim_C6.2.1 pC tC 2 6 ⟨[(2, 2)], [(3, 0)]⟩ 2 2 2 (by decide),
      claim_C6.2.1 pC tC 2 6 ⟨[(2, 2)], [(3, 0)]⟩ 2 2 3 (by decide)⟩,
    by decide,
    (claim_C6.2.2 pC tC 2 36 ⟨[], [(3, 0)]⟩ (Task.nods 2 2) true
        ⟨[(4, 2), (3, 3), (2, 2)], [(0, 1), (1, 0), (2, 1), (3, 0)]⟩ (by decide)).1
      3 0 (by decide)⟩

/-- C7 as stated is false; this exhibits a reported match (on the
cyclic target tC) whose node map sends the two distinct pattern nodes
4 and 2 to the same target node 2, and whose node map has no entry for
the pattern Param node 1 even though that node was compared during the
match (its output value 0 is in the value map). -/
theorem claim_C7_counterexample :
    findPatternMatches pC tC 1 =
      some [⟨2, [(4, 2), (3, 3), (2, 2)], [(0, 1), (1, 0), (2, 1), (3, 0)]⟩] ∧
    (4 ≠ 2 ∧ lookup 4 [(4, 2), (3, 3), (2, 2)] = some 2 ∧
      lookup 2 [(4, 2), (3, 3), (2, 2)] = some 2) ∧
    pC.nodeKind 1 = primParam ∧ pC.valueNode 0 = 1 ∧
    lookup 0 [(0, 1), (1, 0), (2, 1), (3, 0)] = some 1 ∧
    lookup 1 [(4, 2), (3, 3), (2, 2)] = none := by
  decide

/-- C7 amended.  The node map of a reported match never contains an
entry whose pattern key is a Param node (Param nodes compared during
matching receive no entry), and the map need not be injective:
distinct pattern nodes may map to the same target node. -/
theorem claim_C7 (p g : Graph) (tfuel : Nat) (ms : List Match)
    (h : findPatternMatches p g tfuel = some ms) :
    ∀ m ∈ ms, ∀ e ∈ m.nodesMap, p.nodeKind e.1 ≠ primParam := by
  intro m hm e he
  exact (reportedNodesMapProps p g tfuel ms h m hm e he).1

theorem claim_C7_witness :
    pC.nodeKind 4 ≠ primParam :=
  claim_C7 pC tC 1 [⟨2, [(4, 2), (3, 3), (2, 2)], [(0, 1), (1, 0), (2, 1), (3, 0)]⟩]
    (by decide) ⟨2, [(4, 2), (3, 3), (2, 2)], [(0, 1), (1, 0), (2, 1), (3, 0)]⟩
    (by simp) (4, 2) (by simp)

/-!
Fuel adequacy.  The C++ matcher terminates because each recursive call
either answers from the maps or first inserts a fresh pattern key; the
maps hold at most numValues + numNodes distinct pattern keys, so the
fuel matchFuel suffices.
-/

/-- The graph uses identifiers within its declared bounds wherever the
matcher can reach them from the pattern side. -/
def WFPattern (p : Graph) : Prop :=
  p.returnNode < p.numNodes ∧
  (∀ v < p.numValues, p.valueNode v < p.numNodes) ∧
  (∀ n < p.numNodes, ∀ v ∈ p.nodeInputs n, v < p.numValues) ∧
  (∀ n < p.numNodes, ∀ v ∈ p.nodeOutputs n, v < p.numValues)

instance (p : Graph) : Decidable (WFPattern p) := by
  unfold WFPattern
  infer_instance

/-- The memoization maps hold distinct pattern keys within bounds. -/
def goodKeys (p : Graph) (s : MatchState) : Prop :=
  (s.valuesMap.map Prod.fst).Nodup ∧ (s.nodesMap.map Prod.fst).Nodup ∧
  (∀ e ∈ s.valuesMap, e.1 < p.numValues) ∧ (∀ e ∈ s.nodesMap, e.1 < p.numNodes)

/-- The pattern-side arguments of a pending task are within bounds. -/
def taskBounded (p : Graph) : Task → Prop
  | Task.vals v1 _ => v1 < p.numValues
  | Task.nods n1 _ => n1 < p.numNodes
  | Task.list ps => ∀ e ∈ ps, e.1 < p.numValues

/-- Extra fuel a pending task needs beyond the deficit budget: the
length of its remaining pair list. -/
def taskExtra : Task → Nat
  | Task.list ps => ps.length
  | _ => 0

/-- How many fresh pattern keys the maps can still absorb. -/
def stateDeficit (p : Graph) (s : MatchState) : Nat :=
  (p.numValues - s.valuesMap.length) + (p.numNodes - s.nodesMap.length)

lemma le_foldr_max : ∀ l : List Nat, ∀ x ∈ l, x ≤ l.foldr max 0 := by
  intro l
  induction l with
  | nil => simp
  | cons a l ih =>
    intro x hx
    rcases List.mem_cons.mp hx with rfl | hx
    · exact le_max_left _ _
    · exact le_trans (ih x hx) (le_max_right _ _)

lemma arity_le (p : Graph) {n : Nat} (h : n < p.numNodes) :
    (p.nodeOutputs n).length + (p.nodeInputs n).length ≤ maxArity p :=
  le_foldr_max _ _ (List.mem_map_of_mem _ (List.mem_range.mpr h))

lemma nodup_lt_of_fresh {N k : Nat} {l : List Nat} (hnd : l.Nodup)
    (hlt : ∀ x ∈ l, x < N) (hk : k < N) (hfresh : k ∉ l) : l.length < N := by
  have hnd' : (k :: l).Nodup := List.nodup_cons.mpr ⟨hfresh, hnd⟩
  have hsub : (k :: l).toFinset ⊆ Finset.range N := by
    intro x hx
    rw [List.mem_toFinset] at hx
    rw [Finset.mem_range]
    rcases List.mem_cons.mp hx with rfl | hx
    · exact hk
    · exact hlt x hx
  have hcard := Finset.card_le_card hsub
  rw [List.toFinset_card_of_nodup hnd', Finset.card_range] at hcard
  simpa using hcard

lemma goodKeys_fst_lt_values {p : Graph} {s : MatchState} (hg : goodKeys p s) :
    ∀ x ∈ s.valuesMap.map Prod.fst, x < p.numValues := by
  intro x hx
  obtain ⟨e, he, rfl⟩ := List.mem_map.mp hx
  exact hg.2.2.1 e he

lemma goodKeys_fst_lt_nodes {p : Graph} {s : MatchState} (hg : goodKeys p s) :
    ∀ x ∈ s.nodesMap.map Prod.fst, x < p.numNodes := by
  intro x hx
  obtain ⟨e, he, rfl⟩ := List.mem_map.mp hx
  exact hg.2.2.2 e he

lemma goodKeys_insertValue {p : Graph} {s : MatchState} {v1 : Nat} (v2 : Nat)
    (hg : goodKeys p s) (hv : v1 < p.numValues)
    (hl : lookup v1 s.valuesMap = none) :
    goodKeys p ⟨s.nodesMap, (v1, v2) :: s.valuesMap⟩ := by
  have hfresh : v1 ∉ s.valuesMap.map Prod.fst := (lookup_eq_none_iff _ _).mp hl
  refine ⟨?_, hg.2.1, ?_, hg.2.2.2⟩
  · rw [List.map_cons]
    exact List.nodup_cons.mpr ⟨hfresh, hg.1⟩
  · rintro e he
    rcases List.mem_cons.mp he with rfl | he
    · exact hv
    · exact hg.2.2.1 e he

lemma goodKeys_insertNode {p : Graph} {s : MatchState} {n1 : Nat} (n2 : Nat)
    (hg : goodKeys p s) (hn : n1 < p.numNodes)
    (hl : lookup n1 s.nodesMap = none) :
    goodKeys p ⟨(n1, n2) :: s.nodesMap, s.valuesMap⟩ := by
  have hfresh : n1 ∉ s.nodesMap.map Prod.fst := (lookup_eq_none_iff _ _).mp hl
  refine ⟨hg.1, ?_, hg.2.2.1, ?_⟩
  · rw [List.map_cons]
    exact List.nodup_cons.mpr ⟨hfresh, hg.2.1⟩
  · rintro e he
    rcases List.mem_cons.mp he with rfl | he
    · exact hn
    · exact hg.2.2.2 e he

lemma valuesLen_lt {p : Graph} {s : MatchState} {v1 : Nat}
    (hg : goodKeys p s) (hv : v1 < p.numValues)
    (hl : lookup v1 s.valuesMap = none) :
    s.valuesMap.length < p.numValues := by
  have hfresh : v1 ∉ s.valuesMap.map Prod.fst := (lookup_eq_none_iff _ _).mp hl
  have := nodup_lt_of_fresh hg.1 (goodKeys_fst_lt_values hg) hv hfresh
  simpa using this

lemma nodesLen_lt {p : Graph} {s : MatchState} {n1 : Nat}
    (hg : goodKeys p s) (hn : n1 < p.numNodes)
    (hl : lookup n1 s.nodesMap = none) :
    s.nodesMap.length < p.numNodes := by
  have hfresh : n1 ∉ s.nodesMap.map Prod.fst := (lookup_eq_none_iff _ _).mp hl
  have := nodup_lt_of_fresh hg.2.1 (goodKeys_fst_lt_nodes hg) hn hfresh
  simpa using this

/-- Combined preservation and fuel-adequacy statement for one fuel
level: the matcher preserves goodKeys and can only grow the maps, and
with fuel at least the deficit budget it never runs out. -/
lemma matchRunGood (p g : Graph) (anchor : Nat) (hwf : WFPattern p) :
    ∀ fuel s t, goodKeys p s → taskBounded p t →
      (∀ b s', matchRun p g anchor fuel s t = some (b, s') →
        goodKeys p s' ∧ s.valuesMap.length ≤ s'.valuesMap.length ∧
          s.nodesMap.length ≤ s'.nodesMap.length) ∧
      (stateDeficit p s * (maxArity p + 2) + 1 + taskExtra t ≤ fuel →
        (matchRun p g anchor fuel s t).isSome = true) := by
  intro fuel
  induction fuel with
  | zero =>
    intro s t hg hb
    constructor
    · intro b s' h
      simp [matchRun] at h
    · intro hfuel
      omega
  | succ fuel ih =>
    intro s t hg hb
    cases t with
    | vals v1 v2 =>
      have hv1 : v1 < p.numValues := hb
      constructor
      · intro b s' h
        simp only [matchRun] at h
        split at h
        · obtain ⟨-, rfl⟩ := Prod.mk.injEq .. ▸ Option.some.inj h
          exact ⟨hg, le_refl _, le_refl _⟩
        · rename_i hl
          split at h
          · obtain ⟨-, rfl⟩ := Prod.mk.injEq .. ▸ Option.some.inj h
            exact ⟨hg, le_refl _, le_refl _⟩
          · have hg1 := goodKeys_insertValue v2 hg hv1 hl
            have hb1 : taskBounded p (Task.nods (p.valueNode v1) (g.valueNode v2)) :=
              hwf.2.1 v1 hv1
            obtain ⟨hgood', hlv, hln⟩ := (ih _ _ hg1 hb1).1 b s' h
            exact ⟨hgood', by simpa using Nat.le_of_succ_le (Nat.succ_le_of_lt
              (Nat.lt_of_lt_of_le (Nat.lt_succ_self _) (by simpa using hlv))), hln⟩
      · intro hfuel
        simp only [matchRun]
        split
        · simp
        · rename_i hl
          split
          · simp
          · have hg1 := goodKeys_insertValue v2 hg hv1 hl
            have hb1 : taskBounded p (Task.nods (p.valueNode v1) (g.valueNode v2)) :=
              hwf.2.1 v1 hv1
            apply (ih _ _ hg1 hb1).2
            have hlen : s.valuesMap.length < p.numValues := valuesLen_lt hg hv1 hl
            have hdef : stateDeficit p ⟨s.nodesMap, (v1, v2) :: s.valuesMap⟩ + 1 =
                stateDeficit p s := by
              simp only [stateDeficit, List.length_cons]
              omega
            have hkey : stateDeficit p ⟨s.nodesMap, (v1, v2) :: s.valuesMap⟩ *
                  (maxArity p + 2) + (maxArity p + 2) =
                stateDeficit p s * (maxArity p + 2) := by
              rw [← hdef, Nat.add_mul, Nat.one_mul]
            simp only [taskExtra] at hfuel ⊢
            omega
    | nods n1 n2 =>
      have hn1 : n1 < p.numNodes := hb
      constructor
      · intro b s' h
        simp only [matchRun] at h
        split at h
        · obtain ⟨-, rfl⟩ := Prod.mk.injEq .. ▸ Option.some.inj h
          exact ⟨hg, le_refl _, le_refl _⟩
        · rename_i hl
          split at h
          · obtain ⟨-, rfl⟩ := Prod.mk.injEq .. ▸ Option.some.inj h
            exact ⟨hg, le_refl _, le_refl _⟩
          · split at h
            · obtain ⟨-, rfl⟩ := Prod.mk.injEq .. ▸ Option.some.inj h
              exact ⟨hg, le_refl _, le_refl _⟩
            · split at h
              · obtain ⟨-, rfl⟩ := Prod.mk.injEq .. ▸ Option.some.inj h
                exact ⟨hg, le_refl _, le_refl _⟩
              · have hg1 := goodKeys_insertNode n2 hg hn1 hl
                have hb1 : taskBounded p (Task.list
                    ((p.nodeOutputs n1).zip (g.nodeOutputs n2) ++
                      (p.nodeInputs n1).zip (g.nodeInputs n2))) := by
                  intro e he
                  rcases List.mem_append.mp he with he | he
                  · exact hwf.2.2.2 n1 hn1 e.1 (List.of_mem_zip he).1
                  · exact hwf.2.2.1 n1 hn1 e.1 (List.of_mem_zip he).1
                obtain ⟨hgood', hlv, hln⟩ := (ih _ _ hg1 hb1).1 b s' h
                refine ⟨hgood', hlv, ?_⟩
                calc s.nodesMap.length ≤ s.nodesMap.length + 1 := Nat.le_succ _
                  _ ≤ s'.nodesMap.length := by simpa using hln
      · intro hfuel
        simp only [matchRun]
        split
        · simp
        · rename_i hl
          split
          · simp
          · split
            · simp
            · split
              · simp
              · have hg1 := goodKeys_insertNode n2 hg hn1 hl
                have hb1 : taskBounded p (Task.list
                    ((p.nodeOutputs n1).zip (g.nodeOutputs n2) ++
                      (p.nodeInputs n1).zip (g.nodeInputs n2))) := by
                  intro e he
                  rcases List.mem_append.mp he with he | he
                  · exact hwf.2.2.2 n1 hn1 e.1 (List.of_mem_zip he).1
                  · exact hwf.2.2.1 n1 hn1 e.1 (List.of_mem_zip he).1
                apply (ih _ _ hg1 hb1).2
                have hlen : s.nodesMap.length < p.numNodes := nodesLen_lt hg hn1 hl
                have hdef : stateDeficit p ⟨(n1, n2) :: s.nodesMap, s.valuesMap⟩ + 1 =
                    stateDeficit p s := by
                  simp only [stateDeficit, List.length_cons]
                  omega
                have hkey : stateDeficit p ⟨(n1, n2) :: s.nodesMap, s.valuesMap⟩ *
                      (maxArity p + 2) + (maxArity p + 2) =
                    stateDeficit p s * (maxArity p + 2) := by
                  rw [← hdef, Nat.add_mul, Nat.one_mul]
                have hplen : ((p.nodeOutputs n1).zip (g.nodeOutputs n2) ++
                    (p.nodeInputs n1).zip (g.nodeInputs n2)).length ≤ maxArity p := by
                  have hz1 : ((p.nodeOutputs n1).zip (g.nodeOutputs n2)).length ≤
                      (p.nodeOutputs n1).length := by
                    rw [List.length_zip]
                    exact Nat.min_le_left _ _
                  have hz2 : ((p.nodeInputs n1).zip (g.nodeInputs n2)).length ≤
                      (p.nodeInputs n1).length := by
                    rw [List.length_zip]
                    exact Nat.min_le_left _ _
                  have := arity_le p hn1
                  rw [List.length_append]
                  omega
                simp only [taskExtra] at hfuel ⊢
                omega
    | list ps =>
      cases ps with
      | nil =>
        constructor
        · intro b s' h
          simp only [matchRun] at h
          obtain ⟨-, rfl⟩ := Prod.mk.injEq .. ▸ Option.some.inj h
          exact ⟨hg, le_refl _, le_refl _⟩
        · intro hfuel
          simp [matchRun]
      | cons e rest =>
        obtain ⟨v1, v2⟩ := e
        have hv1 : v1 < p.numValues := hb (v1, v2) (List.mem_cons_self _ _)
        have hrest : taskBounded p (Task.list rest) := by
          intro e he
          exact hb e (List.mem_cons_of_mem _ he)
        constructor
        · intro b s' h
          simp only [matchRun] at h
          split at h
          · exact absurd h (by simp)
          · rename_i s1 hm
            obtain ⟨-, rfl⟩ := Prod.mk.injEq .. ▸ Option.some.inj h
            exact (ih s (Task.vals v1 v2) hg (show taskBounded p (Task.vals v1 v2) from hv1)).1 false s1 hm
          · rename_i s1 hm
            obtain ⟨hg1, hlv1, hln1⟩ := (ih s (Task.vals v1 v2) hg (show taskBounded p (Task.vals v1 v2) from hv1)).1 true s1 hm
            obtain ⟨hg2, hlv2, hln2⟩ := (ih _ _ hg1 hrest).1 b s' h
            exact ⟨hg2, le_trans hlv1 hlv2, le_trans hln1 hln2⟩
        · intro hfuel
          simp only [matchRun]
          simp only [taskExtra, List.length_cons] at hfuel
          have hhead : (matchRun p g anchor fuel s (Task.vals v1 v2)).isSome = true := by
            apply (ih s (Task.vals v1 v2) hg (show taskBounded p (Task.vals v1 v2) from hv1)).2
            simp only [taskExtra]
            omega
          obtain ⟨⟨b1, s1⟩, hm⟩ := Option.isSome_iff_exists.mp hhead
          rw [hm]
          cases b1 with
          | false => simp
          | true =>
            obtain ⟨hg1, hlv1, hln1⟩ := (ih s (Task.vals v1 v2) hg (show taskBounded p (Task.vals v1 v2) from hv1)).1 true s1 hm
            apply (ih _ _ hg1 hrest).2
            have hmono : stateDeficit p s1 ≤ stateDeficit p s := by
              simp only [stateDeficit]
              omega
            have := Nat.mul_le_mul_right (maxArity p + 2) hmono
            simp only [taskExtra]
            omega

lemma goodKeys_empty (p : Graph) : goodKeys p ⟨[], []⟩ :=
  ⟨List.nodup_nil, List.nodup_nil, by simp, by simp⟩

/-- Fuel adequacy for a whole anchor attempt: on a well-formed pattern
whose return node has exactly one input, matchesSubgraphFromAnchorNode
always returns an answer. -/
lemma anchorAdequate (p g : Graph) (hwf : WFPattern p)
    (hexit : (p.nodeInputs p.returnNode).length = 1) (anchor : Nat) :
    (matchesSubgraphFromAnchorNode p g anchor).isSome = true := by
  unfold matchesSubgraphFromAnchorNode
  rw [if_pos hexit]
  obtain ⟨v, hv⟩ : ∃ v, p.nodeInputs p.returnNode = [v] := by
    cases hl : p.nodeInputs p.returnNode with
    | nil => rw [hl] at hexit; simp at hexit
    | cons a t =>
      rw [hl] at hexit
      simp at hexit
      exact ⟨a, by rw [hexit]⟩
  have hvval : v < p.numValues := hwf.2.2.1 p.returnNode hwf.1 v (by
    rw [hv]; exact List.mem_singleton.mpr rfl)
  have hroot : p.valueNode ((p.nodeInputs p.returnNode).headD 0) < p.numNodes := by
    rw [hv]
    exact hwf.2.1 v hvval
  unfold matchNodes
  apply (matchRunGood p g anchor hwf (matchFuel p) ⟨[], []⟩
    (Task.nods (p.valueNode ((p.nodeInputs p.returnNode).headD 0)) anchor)
    (goodKeys_empty p)
    (show taskBounded p (Task.nods _ anchor) from hroot)).2
  simp only [stateDeficit, taskExtra, matchFuel]
  simp

/-- C8.  On a well-formed pattern whose return node has one input, an
anchor attempt always terminates with an answer (the fuel matchFuel
never runs out), for every target graph and anchor, including targets
whose node/value references form mutual def/use cycles: every pattern
value and non-Param pattern node is recorded in its map before the
recursive call, and revisiting a mapped entity answers from the map. -/
theorem claim_C8 (p g : Graph) (anchor : Nat) (hwf : WFPattern p)
    (hexit : (p.nodeInputs p.returnNode).length = 1) :
    (matchesSubgraphFromAnchorNode p g anchor).isSome = true :=
  anchorAdequate p g hwf hexit anchor

theorem claim_C8_witness :
    WFPattern pC ∧ (pC.nodeInputs pC.returnNode).length = 1 ∧
    tC.valueNode (tC.nodeInputs 2).headI = 3 ∧ tC.valueNode (tC.nodeInputs 3).headI = 2 ∧
    (matchesSubgraphFromAnchorNode pC tC 2).isSome = true :=
  ⟨by decide, by decide, by decide, by decide, claim_C8 pC tC 2 (by decide) (by decide)⟩

/-- On a pattern passing validation, with all anchor attempts
answering, the driver body of one block answers and leaves the stack
the traversal predicts. -/
lemma driverNodesSome (p g : Graph)
    (hall : ∀ n, (matchesSubgraphFromAnchorNode p g n).isSome = true) :
    ∀ ns stk acc, ∃ acc',
      driverNodes p g ns stk acc = some (acc', pushSubBlocks g ns stk) := by
  intro ns
  induction ns with
  | nil =>
    intro stk acc
    exact ⟨acc, rfl⟩
  | cons n ns ih =>
    intro stk acc
    obtain ⟨⟨ok, s⟩, hm⟩ := Option.isSome_iff_exists.mp (hall n)
    obtain ⟨acc', hrec⟩ := ih ((g.nodeBlocks n).reverse ++ stk)
      (if ok then acc ++ [⟨n, s.nodesMap, s.valuesMap⟩] else acc)
    refine ⟨acc', ?_⟩
    simp only [driverNodes, hm, pushSubBlocks]
    exact hrec

/-- If the node-collecting traversal completes within the given fuel
and every anchor attempt answers, the driver loop answers. -/
lemma driverLoopSome (p g : Graph)
    (hall : ∀ n, (matchesSubgraphFromAnchorNode p g n).isSome = true) :
    ∀ fuel stk accN acc ns, collectNodes g fuel stk accN = some ns →
      ∃ ms, driverLoop p g fuel stk acc = some ms := by
  intro fuel
  induction fuel with
  | zero =>
    intro stk accN acc ns h
    cases stk with
    | nil => exact ⟨acc, rfl⟩
    | cons b rest => simp [collectNodes] at h
  | succ fuel ih =>
    intro stk accN acc ns h
    cases stk with
    | nil => exact ⟨acc, rfl⟩
    | cons b rest =>
      simp only [collectNodes] at h
      obtain ⟨acc', hdn⟩ := driverNodesSome p g hall (g.blockNodes b) rest acc
      obtain ⟨ms', hloop⟩ := ih _ _ acc' _ h
      refine ⟨ms', ?_⟩
      simp only [driverLoop, hdn]
      exact hloop

/-- C9.  findPatternMatches aborts (none, modelling the AT_ASSERT
failure) whenever the pattern fails validation, before attempting any
match; and on a valid well-formed pattern it returns a (possibly
empty) list of matches whenever the block traversal itself completes
within the driver fuel: failed anchor attempts are mere boolean
rejections and never abort the call. -/
theorem claim_C9 (p g : Graph) (tfuel : Nat) :
    (patternGraphIsValid p = false → findPatternMatches p g tfuel = none) ∧
    (patternGraphIsValid p = true → WFPattern p →
      (collectNodes g tfuel [g.rootBlock] []).isSome = true →
      ∃ ms, findPatternMatches p g tfuel = some ms) := by
  constructor
  · intro hval
    simp [findPatternMatches, hval]
  · intro hval hwf hcol
    have hexit : (p.nodeInputs p.returnNode).length = 1 := by
      have h2 := ((Bool.and_eq_true _ _).mp hval).2
      exact beq_iff_eq.mp h2
    obtain ⟨ns, hns⟩ := Option.isSome_iff_exists.mp hcol
    obtain ⟨ms, hms⟩ :=
      driverLoopSome p g (anchorAdequate p g hwf hexit) tfuel [g.rootBlock] [] [] ns hns
    refine ⟨ms, ?_⟩
    simpa [findPatternMatches, hval] using hms

theorem claim_C9_witness :
    (patternGraphIsValid pBad = false ∧ findPatternMatches pBad tC 1 = none) ∧
    (patternGraphIsValid pC = true ∧ WFPattern pC ∧
      (collectNodes tC 1 [tC.rootBlock] []).isSome = true ∧
      ∃ ms, findPatternMatches pC tC 1 = some ms) :=
  ⟨⟨by decide, (claim_C9 pBad tC 1).1 (by decide)⟩,
    ⟨by decide, by decide, by decide,
      (claim_C9 pC tC 1).2 (by decide) (by decide) (by decide)⟩⟩

/-- With a pattern consisting solely of a Param node feeding the exit
node, every anchor attempt succeeds immediately with empty maps: the
pattern root is the Param node, which matches anything before any
structural or scope test. -/
lemma paramAnchor (p g : Graph) (v0 : Nat)
    (hexit : p.nodeInputs p.returnNode = [v0])
    (hparam : p.nodeKind (p.valueNode v0) = primParam) :
    ∀ n, matchesSubgraphFromAnchorNode p g n = some (true, ⟨[], []⟩) := by
  intro n
  unfold matchesSubgraphFromAnchorNode
  rw [hexit]
  rw [if_pos (by simp)]
  simp only [List.headD_cons, matchNodes, matchFuel, matchRun, lookup]
  rw [if_pos hparam]

lemma driverNodesParam (p g : Graph)
    (hall : ∀ n, matchesSubgraphFromAnchorNode p g n = some (true, ⟨[], []⟩)) :
    ∀ ns stk acc, driverNodes p g ns stk acc =
      some (acc ++ ns.map (fun n => ⟨n, [], []⟩), pushSubBlocks g ns stk) := by
  intro ns
  induction ns with
  | nil =>
    intro stk acc
    simp [driverNodes, pushSubBlocks]
  | cons n ns ih =>
    intro stk acc
    simp only [driverNodes, hall n, pushSubBlocks, if_true]
    rw [ih]
    simp

lemma driverLoopParam (p g : Graph)
    (hall : ∀ n, matchesSubgraphFromAnchorNode p g n = some (true, ⟨[], []⟩)) :
    ∀ fuel stk acc,
      driverLoop p g fuel stk (acc.map fun n => ⟨n, [], []⟩) =
        (collectNodes g fuel stk acc).map (List.map fun n => ⟨n, [], []⟩) := by
  intro fuel
  induction fuel with
  | zero =>
    intro stk acc
    cases stk <;> simp [driverLoop, collectNodes]
  | succ fuel ih =>
    intro stk acc
    cases stk with
    | nil => simp [driverLoop, collectNodes]
    | cons b rest =>
      simp only [driverLoop, collectNodes, driverNodesParam p g hall]
      rw [show ((acc.map fun n => (⟨n, [], []⟩ : Match)) ++
            (g.blockNodes b).map fun n => ⟨n, [], []⟩) =
          (acc ++ g.blockNodes b).map fun n => ⟨n, [], []⟩ from
        (List.map_append _ _ _).symm]
      exact ih _ _

/-- C1.  With a valid pattern consisting solely of a Param node whose
single output feeds the exit node, findPatternMatches reports exactly
one match per node the driver visits (every node of the target graph,
nested sub-blocks included, in traversal order), each anchored at
that node, with empty maps. -/
theorem claim_C1 (p g : Graph) (tfuel v0 : Nat)
    (hvalid : patternGraphIsValid p = true)
    (hexit : p.nodeInputs p.returnNode = [v0])
    (hparam : p.nodeKind (p.valueNode v0) = primParam) :
    findPatternMatches p g tfuel =
      (allGraphNodes g tfuel).map (List.map fun n => ⟨n, [], []⟩) := by
  unfold findPatternMatches allGraphNodes
  rw [if_pos hvalid]
  have h := driverLoopParam p g (paramAnchor p g v0 hexit hparam) tfuel [g.rootBlock] []
  simpa using h

theorem claim_C1_witness :
    (patternGraphIsValid pP = true ∧ pP.nodeInputs pP.returnNode = [0] ∧
      pP.nodeKind (pP.valueNode 0) = primParam ∧
      findPatternMatches pP tB 2 =
        (allGraphNodes tB 2).map (List.map fun n => ⟨n, [], []⟩)) ∧
    allGraphNodes tB 2 = some [1, 2] ∧
    findPatternMatches pP tB 2 = some [⟨1, [], []⟩, ⟨2, [], []⟩] :=
  ⟨⟨by decide, by decide, by decide, claim_C1 pP tB 2 0 (by decide) rfl (by decide)⟩,
    by decide, by decide⟩

end SubgraphMatching
